import Mathlib

/-!
# tuya-pulsar-sdk-go: topic naming and consumer construction

A shallow embedding of `client.go`: the topic-naming helpers (`getTenant`,
`subscriptionName`, `TopicForAccessID`), the partition lookup
(`GetPartition`) and the consumer factory (`NewConsumer`).

Go strings are byte sequences, so they are lists of bytes here. A Go function
that can raise a run-time panic returns an `Outcome`.
-/

namespace Pulsar

/-! ## Go strings and run-time outcomes -/

/-- One byte of a Go string. -/
abbrev Byte := UInt8

/-- A Go `string`: an immutable sequence of bytes. -/
abbrev GoString := List Byte

/-- The bytes of an ASCII literal. -/
def ascii (s : String) : GoString :=
  s.toList.map (fun ch => UInt8.ofNat ch.toNat)

/-- Run-time panics of the Go runtime that the modelled code can raise. -/
inductive Panic where
  /-- The panic `slice bounds out of range [:hi]` for a string of length `len`. -/
  | sliceBoundsOutOfRange (hi : Int) (len : Nat)
  deriving DecidableEq, Repr

/-- What a Go call does: it returns a value or it panics. -/
inductive Outcome (α : Type) where
  | ret (v : α)
  | panic (p : Panic)
  deriving DecidableEq, Repr

/-- Sequencing of Go calls: a panic in the first aborts the second. -/
def Outcome.bind {α β : Type} (x : Outcome α) (f : α → Outcome β) : Outcome β :=
  match x with
  | .ret v => f v
  | .panic p => .panic p

/-- The byte `/`. -/
def slash : Byte := 47

/-- The literal `"persistent://"`. -/
def persistentPrefix : GoString := ascii "persistent://"

/-! ## The parts of package `strings` used by the source -/

/-- Go `strings.HasPrefix`: `len(s) >= len(prefix) && s[0:len(prefix)] == prefix`. -/
def HasPrefix (s pre : GoString) : Bool :=
  decide (pre.length ≤ s.length) && (s.take pre.length == pre)

/-- Go `strings.TrimPrefix`: `s` without the leading `prefix`, or `s` itself
when it does not start with `prefix`. -/
def TrimPrefix (s pre : GoString) : GoString :=
  if HasPrefix s pre then s.drop pre.length else s

/-- The search of `strings.Index` from offset `i`: the offset of the first
position of `s` at which `substr` starts, or `-1`. -/
def indexFrom (substr : GoString) : GoString → Int → Int
  | [], i => if substr = [] then i else -1
  | b :: rest, i =>
    if HasPrefix (b :: rest) substr then i else indexFrom substr rest (i + 1)

/-- Go `strings.Index`: the index of the first instance of `substr` in `s`,
or `-1` if `substr` is not present in `s`. -/
def Index (s substr : GoString) : Int :=
  indexFrom substr s 0

/-- The Go slice expression `s[:hi]` on a string: it panics unless
`0 <= hi <= len(s)`. -/
def sliceTo (s : GoString) (hi : Int) : Outcome GoString :=
  if 0 ≤ hi ∧ hi ≤ (s.length : Int) then .ret (s.take hi.toNat)
  else .panic (.sliceBoundsOutOfRange hi s.length)

/-! ## Topic naming (`client.go`, lines 60-68) -/

/-- The Go function `getTenant`:
`topic = strings.TrimPrefix(topic, "persistent://")`,
`end := strings.Index(topic, "/")`, `return topic[:end]`. -/
def getTenant (topic : GoString) : Outcome GoString :=
  let topic := TrimPrefix topic persistentPrefix
  let «end» := Index topic (ascii "/")
  sliceTo topic «end»

/-- The Go function `subscriptionName`: `getTenant(topic) + "-sub"`. -/
def subscriptionName (topic : GoString) : Outcome GoString :=
  (getTenant topic).bind (fun tenant => .ret (tenant ++ ascii "-sub"))

/-! ## The parts of package `fmt` used by the source -/

/-- An operand of `fmt.Sprintf`: the source passes strings and `int`s. -/
inductive Arg where
  | str (s : GoString)
  | int (i : Int)
  deriving DecidableEq, Repr

/-- The decimal digits of a natural number, as bytes. -/
def decimal (n : Nat) : GoString :=
  (Nat.toDigits 10 n).map (fun ch => UInt8.ofNat ch.toNat)

/-- The rendering of an `int` under the verb `%d`: a minus sign for a negative
number, then the decimal digits of its magnitude. -/
def formatInt (i : Int) : GoString :=
  if i < 0 then ascii "-" ++ decimal i.natAbs else decimal i.natAbs

/-- The default rendering (`%v`) of an operand. -/
def Arg.default : Arg → GoString
  | .str s => s
  | .int i => formatInt i

/-- The Go type name of an operand, as `fmt` prints it in a diagnostic. -/
def Arg.typeName : Arg → GoString
  | .str _ => ascii "string"
  | .int _ => ascii "int"

/-- One operand under one verb. `%s` renders a string verbatim, `%d` renders an
`int` in decimal, `%v` is the default rendering; a verb that does not fit its
operand gives the diagnostic `%!verb(type=value)`. Other verbs of `fmt` (and
flags, width and precision) are not used by the source and are outside this
model. -/
def formatArg (verb : Byte) (a : Arg) : GoString :=
  match a with
  | .str s =>
    if verb = 115 ∨ verb = 118 then s
    else ascii "%!" ++ [verb] ++ ascii "(" ++ a.typeName ++ ascii "=" ++ a.default ++ ascii ")"
  | .int i =>
    if verb = 100 ∨ verb = 118 then formatInt i
    else ascii "%!" ++ [verb] ++ ascii "(" ++ a.typeName ++ ascii "=" ++ a.default ++ ascii ")"

/-- The diagnostic for operands left over when the format is exhausted:
`%!(EXTRA type=value, type=value)`. -/
def extraArgs (args : List Arg) : GoString :=
  ascii "%!(EXTRA " ++
    (ascii ", ").intercalate (args.map (fun a => a.typeName ++ ascii "=" ++ a.default)) ++
    ascii ")"

/-- Go `fmt.Sprintf`, for formats made of plain bytes, `%%` and the verbs
`%s`, `%d`, `%v`: plain bytes are copied, each verb consumes the next operand.
An operand is never scanned for verbs. -/
def Sprintf : GoString → List Arg → GoString
  | [], [] => []
  | [], a :: args => extraArgs (a :: args)
  | b :: rest, args =>
    if b ≠ 37 then b :: Sprintf rest args
    else
      match rest with
      | [] => ascii "%!(NOVERB)" ++ Sprintf [] args
      | verb :: rest =>
        if verb = 37 then 37 :: Sprintf rest args
        else
          match args with
          | [] => ascii "%!" ++ [verb] ++ ascii "(MISSING)" ++ Sprintf rest []
          | a :: args => formatArg verb a ++ Sprintf rest args

/-- The Go function `TopicForAccessID`:
`fmt.Sprintf("persistent://%s/out/event", accessID)`. -/
def TopicForAccessID (accessID : GoString) : GoString :=
  let topic := Sprintf (ascii "persistent://%s/out/event") [.str accessID]
  topic

/-! ## Collaborators of the client

The broker client library (`manage`), the logger and the declarations of
`consumer.go` are not part of `client.go`. The library is represented by the
data the client hands to it and the answers it gives back. Logging has no
effect on the results and is left out. -/

/-- A Go `error` value built by `errors.New`. -/
structure GoError where
  msg : GoString
  deriving DecidableEq, Repr

/-- Go `errors.New`. -/
def errors.New (text : GoString) : GoError := ⟨text⟩

/-- A channel made by `make(chan T, capacity)`. -/
structure Chan where
  capacity : Nat
  deriving DecidableEq, Repr

/-- Modelled from the spec: the `AuthProvider` interface of the missing
`auth.go`, `authMethod() string` and `authData() []byte`, as the values a
provider supplied by the application returns. -/
structure AuthProvider where
  AuthMethod : GoString
  AuthData : List Byte
  deriving DecidableEq, Repr

/-- Modelled from the spec: the struct `ConsumerConfig` of the missing
`consumer.go`, `{Topic, AuthProvider}`; `client.go` reads the fields `Topic`
and `Auth`. -/
structure ConsumerConfig where
  Topic : GoString
  Auth : AuthProvider
  deriving DecidableEq, Repr

/-- The fields of `tls.Config` that the client sets. -/
structure TLSConfig where
  InsecureSkipVerify : Bool
  deriving DecidableEq, Repr

/-- The struct `manage.ClientConfig`, with the fields the client sets. -/
structure manage.ClientConfig where
  Addr : GoString
  AuthData : List Byte
  AuthMethod : GoString
  TLSConfig : TLSConfig
  Errs : Chan
  deriving DecidableEq, Repr

/-- The subscription mode constant used by the client. -/
inductive manage.SubscriptionMode where
  | SubscriptionModeFailover
  deriving DecidableEq, Repr

/-- The struct `manage.ConsumerConfig`, with the fields the client sets.
`NewConsumerTimeout` is a `time.Duration`, in nanoseconds. -/
structure manage.ConsumerConfig where
  ClientConfig : manage.ClientConfig
  Topic : GoString
  SubMode : manage.SubscriptionMode
  Name : GoString
  NewConsumerTimeout : Nat
  deriving DecidableEq, Repr

/-- A `*manage.ManagedConsumer`: the handle the library returns, identified by
the configuration it was created with. -/
structure manage.ManagedConsumer where
  cfg : manage.ConsumerConfig
  deriving DecidableEq, Repr

/-- The broker's answer to a partition-metadata query. The count is a `uint32`
on the wire. -/
structure manage.PartitionedTopicMetadata where
  partitions : Fin 4294967296
  deriving DecidableEq, Repr

/-- The getter `GetPartitions() uint32` of the answer. -/
def manage.PartitionedTopicMetadata.GetPartitions (p : manage.PartitionedTopicMetadata) : Nat :=
  p.partitions.val

/-- A `*manage.ClientPool`: `Partitions` is the partition-metadata query, which
answers with the metadata or with an error (a context timeout is one of the
errors). -/
structure manage.ClientPool where
  Partitions : manage.ClientConfig → GoString → Except GoError manage.PartitionedTopicMetadata

/-- The constructor `manage.NewManagedConsumer(pool, cfg)`: it returns a handle
and no error. -/
def manage.NewManagedConsumer (_pool : manage.ClientPool) (cfg : manage.ConsumerConfig) :
    manage.ManagedConsumer :=
  ⟨cfg⟩

/-- The Go conversion `int(v)` of an unsigned value, with `int` 64 bits wide:
the value modulo `2^64`, read as a two's complement number. -/
def toInt (v : Nat) : Int :=
  let r : Nat := v % 2 ^ 64
  if r < 2 ^ 63 then (r : Int) else (r : Int) - 2 ^ 64

/-- Modelled from the spec: the struct `consumerImpl` of the missing
`consumer.go` (the SingleConsumer, which wraps one ManagedConsumer bound to one
topic), with the fields `client.go` sets. -/
structure consumerImpl where
  csm : manage.ManagedConsumer
  topic : GoString
  stopped : Chan
  deriving DecidableEq, Repr

/-- Modelled from the spec: the struct `ConsumerList` of the missing
`consumer.go` (the PartitionedConsumerGroup: an ordered list of SingleConsumers,
a flow-control period and permit count, a stop signal), with the fields
`client.go` sets. -/
structure ConsumerList where
  list : List consumerImpl
  FlowPeriodSecond : Nat
  FlowPermit : Nat
  Topic : GoString
  Stopped : Chan
  deriving DecidableEq, Repr

/-- A value of the interface `Consumer`: `nil`, a `*consumerImpl` or a
`*ConsumerList`. -/
inductive Consumer where
  | nil
  | single (c : consumerImpl)
  | list (l : ConsumerList)
  deriving DecidableEq, Repr

/-- The constant `DefaultFlowPeriodSecond`. -/
def DefaultFlowPeriodSecond : Nat := 30

/-- The constant `DefaultFlowPermit`. -/
def DefaultFlowPermit : Nat := 10

/-- The constant `time.Minute`, in nanoseconds. -/
def time.Minute : Nat := 60 * 1000000000

/-! ## The client (`client.go`, lines 48-58 and 70-146) -/

/-- The struct `client`. -/
structure client where
  pool : manage.ClientPool
  Addr : GoString

/-- The method `GetPartition`: the partition query under a 3 second timeout;
`0` when the query returns an error, else `int(p.GetPartitions())`. -/
def client.GetPartition (c : client) (topic : GoString) (config : manage.ClientConfig) : Int :=
  match c.pool.Partitions config topic with
  | .error _ => 0
  | .ok p => toInt p.GetPartitions

/-- The `manage.ClientConfig` literal built by `NewConsumer` (lines 83-91);
`errs` is `make(chan error, 10)`. -/
def NewConsumer.clientConfig (c : client) (config : ConsumerConfig) : manage.ClientConfig :=
  let errs : Chan := ⟨10⟩
  { Addr := c.Addr
    AuthData := config.Auth.AuthData
    AuthMethod := config.Auth.AuthMethod
    TLSConfig := { InsecureSkipVerify := true }
    Errs := errs }

/-- The body of the loop of `NewConsumer` (lines 104-110) at index `i`, on the
loop's variables `cfg` and `list`. -/
def NewConsumer.step (c : client) (originTopic : GoString)
    (st : manage.ConsumerConfig × List consumerImpl) (i : Nat) :
    manage.ConsumerConfig × List consumerImpl :=
  let cfg := { st.1 with Topic := Sprintf (ascii "%s-partition-%d") [.str originTopic, .int i] }
  let mc := manage.NewManagedConsumer c.pool cfg
  (cfg, st.2 ++ [{ csm := mc, topic := cfg.Topic, stopped := ⟨0⟩ }])

/-- The statements of `NewConsumer` after its last `return` (lines 124-134,
under the comment `// single topic`): one managed consumer on `cfg`, returned
as a `consumerImpl` with a nil error. No execution reaches them. -/
def NewConsumer.singleTopic (c : client) (cfg : manage.ConsumerConfig) :
    Consumer × Option GoError :=
  let mc := manage.NewManagedConsumer c.pool cfg
  (.single { csm := mc, topic := cfg.Topic, stopped := ⟨0⟩ }, none)

/-- The method `NewConsumer`. The composite literal `cfg` is evaluated first
(so `subscriptionName(config.Topic)` runs before the partition query), then
`p := c.GetPartition(config.Topic, cfg.ClientConfig)`. For `p > 0` the loop
`for i := 0; i < p; i++` runs its body at `i = 0, ..., p-1` and the
`ConsumerList` is returned with a nil error; otherwise the result is
`nil, errors.New("pulsar connect failed")`. The result pairs the returned
`Consumer` with the returned `error` (`none` is the nil error). -/
def client.NewConsumer (c : client) (config : ConsumerConfig) :
    Outcome (Consumer × Option GoError) :=
  (subscriptionName config.Topic).bind fun name =>
    let cfg : manage.ConsumerConfig :=
      { ClientConfig := NewConsumer.clientConfig c config
        Topic := config.Topic
        SubMode := .SubscriptionModeFailover
        Name := name
        NewConsumerTimeout := time.Minute }
    let p := c.GetPartition config.Topic cfg.ClientConfig
    if p > 0 then
      let originTopic := cfg.Topic
      let st := (List.range p.toNat).foldl (NewConsumer.step c originTopic) (cfg, [])
      let consumerList : ConsumerList :=
        { list := st.2
          FlowPeriodSecond := DefaultFlowPeriodSecond
          FlowPermit := DefaultFlowPermit
          Topic := config.Topic
          Stopped := ⟨0⟩ }
      .ret (.list consumerList, none)
    else
      .ret (.nil, some (errors.New (ascii "pulsar connect failed")))

/-! ## Concrete collaborators for evaluation -/

/-- A pool whose partition query answers every topic with `n` partitions. -/
def poolReporting (n : Fin 4294967296) : manage.ClientPool :=
  ⟨fun _ _ => .ok ⟨n⟩⟩

/-- A pool whose partition query fails. -/
def poolFailing : manage.ClientPool :=
  ⟨fun _ _ => .error (errors.New (ascii "context deadline exceeded"))⟩

/-- The credentials of the example program. -/
def exampleAuth : AuthProvider :=
  ⟨ascii "token", ascii "accessKey"⟩

/-- The consumer configuration of the example program, for the access id `abc`. -/
def exampleConfig : ConsumerConfig :=
  ⟨ascii "persistent://abc/out/event", exampleAuth⟩

/-- A consumer configuration whose topic has no `/` at all. -/
def malformedConfig : ConsumerConfig :=
  ⟨ascii "abc", exampleAuth⟩

/-- The broker address constant `PulsarAddrCN`. -/
def PulsarAddrCN : GoString := ascii "pulsar://mqe.tuyacn.com:7285"

/-! ## Lemmas on the string functions -/

theorem ascii_slash : ascii "/" = [slash] := by decide

theorem hasPrefix_iff (s pre : GoString) : HasPrefix s pre = true ↔ pre <+: s := by
  unfold HasPrefix
  rw [List.prefix_iff_eq_take]
  simp only [Bool.and_eq_true, decide_eq_true_eq, beq_iff_eq]
  constructor
  · rintro ⟨_, h⟩
    exact h.symm
  · intro h
    refine ⟨?_, h.symm⟩
    have hl := congrArg List.length h
    rw [List.length_take] at hl
    omega

theorem trimPrefix_append (pre rest : GoString) : TrimPrefix (pre ++ rest) pre = rest := by
  have h : HasPrefix (pre ++ rest) pre = true := (hasPrefix_iff _ _).2 (List.prefix_append _ _)
  simp [TrimPrefix, h]

theorem hasPrefix_cons_slash (b : Byte) (rest : GoString) :
    HasPrefix (b :: rest) [slash] = (b == slash) := by
  simp [HasPrefix]

theorem indexFrom_slash (s : GoString) (i : Int) :
    indexFrom [slash] s i =
      if slash ∈ s then i + ((s.takeWhile (fun b => b != slash)).length : Int) else -1 := by
  induction s generalizing i with
  | nil => simp [indexFrom]
  | cons b rest ih =>
    rw [indexFrom, hasPrefix_cons_slash]
    by_cases hb : b = slash
    · simp [hb]
    · have hb2 : ¬ slash = b := fun h => hb h.symm
      simp only [beq_iff_eq, hb, if_false, ih, List.mem_cons, hb2, false_or]
      by_cases hm : slash ∈ rest
      · simp [hm, List.takeWhile_cons, hb]
        omega
      · simp [hm]

theorem take_length_takeWhile (p : Byte → Bool) (s : GoString) :
    s.take (s.takeWhile p).length = s.takeWhile p := by
  induction s with
  | nil => simp
  | cons b rest ih =>
    by_cases hb : p b = true
    · simp [List.takeWhile_cons, hb, ih]
    · simp [List.takeWhile_cons, hb]

theorem takeWhile_append_of_mem (s t : GoString) (h : slash ∈ s) :
    (s ++ t).takeWhile (fun b => b != slash) = s.takeWhile (fun b => b != slash) := by
  induction s with
  | nil => simp at h
  | cons b rest ih =>
    by_cases hb : b = slash
    · simp [List.takeWhile_cons, hb]
    · have hm : slash ∈ rest := by
        rcases List.mem_cons.1 h with h1 | h1
        · exact absurd h1.symm hb
        · exact h1
      simp [List.takeWhile_cons, hb, ih hm]

theorem takeWhile_of_not_mem (s : GoString) (h : slash ∉ s) :
    s.takeWhile (fun b => b != slash) = s := by
  induction s with
  | nil => simp
  | cons b rest ih =>
    have hb : ¬ b = slash := fun e => h (by simp [e])
    have hr : slash ∉ rest := fun e => h (List.mem_cons_of_mem _ e)
    simp [List.takeWhile_cons, hb, ih hr]

/-- What `getTenant` computes: on the topic `t` left after trimming
`"persistent://"`, the bytes before the first `/` when `t` contains one, and the
panic `slice bounds out of range [:-1]` when it contains none. -/
theorem getTenant_eq (topic : GoString) :
    getTenant topic =
      if slash ∈ TrimPrefix topic persistentPrefix then
        .ret ((TrimPrefix topic persistentPrefix).takeWhile (fun b => b != slash))
      else
        .panic (.sliceBoundsOutOfRange (-1) (TrimPrefix topic persistentPrefix).length) := by
  unfold getTenant
  simp only [ascii_slash, Index, indexFrom_slash]
  by_cases hm : slash ∈ TrimPrefix topic persistentPrefix
  · have hle := (List.takeWhile_sublist (fun b => b != slash)
      (l := TrimPrefix topic persistentPrefix)).length_le
    simp only [hm, if_true, sliceTo, zero_add]
    rw [if_pos (by constructor <;> omega)]
    simp [take_length_takeWhile]
  · simp [hm, sliceTo]

theorem takeWhile_append_slash (s t : GoString) :
    (s ++ slash :: t).takeWhile (fun b => b != slash) = s.takeWhile (fun b => b != slash) := by
  induction s with
  | nil => simp [List.takeWhile_cons]
  | cons b rest ih =>
    by_cases hb : b = slash
    · simp [List.takeWhile_cons, hb]
    · simp [List.takeWhile_cons, hb, ih]

theorem getTenant_panics_of_no_slash (topic : GoString)
    (h : slash ∉ TrimPrefix topic persistentPrefix) :
    getTenant topic =
      .panic (.sliceBoundsOutOfRange (-1) (TrimPrefix topic persistentPrefix).length) := by
  rw [getTenant_eq, if_neg h]

theorem sprintf_topicForAccessID (accessID : GoString) :
    Sprintf (ascii "persistent://%s/out/event") [.str accessID] =
      persistentPrefix ++ accessID ++ ascii "/out/event" := by
  rfl

theorem sprintf_partition (originTopic : GoString) (i : Nat) :
    Sprintf (ascii "%s-partition-%d") [.str originTopic, .int i] =
      originTopic ++ ascii "-partition-" ++ decimal i := by
  have h : formatInt (i : Int) = decimal i := by
    simp [formatInt]
  have h2 : Sprintf (ascii "%s-partition-%d") [.str originTopic, .int i] =
      originTopic ++ (ascii "-partition-" ++ (formatInt (i : Int) ++ [])) := rfl
  rw [h2, h, List.append_nil, List.append_assoc]

theorem toInt_of_lt (v : Nat) (h : v < 2 ^ 63) : toInt v = (v : Int) := by
  have h2 : v % 2 ^ 64 = v := Nat.mod_eq_of_lt (by omega)
  simp only [toInt, h2]
  rw [if_pos h]

theorem hasPrefix_append_of_not_mem (pre topic rest : GoString) (d : Byte) (hd : d ∉ pre) :
    HasPrefix (topic ++ d :: rest) pre = HasPrefix topic pre := by
  rw [Bool.eq_iff_iff, hasPrefix_iff, hasPrefix_iff]
  induction topic generalizing pre with
  | nil =>
    cases pre with
    | nil => simp
    | cons a pre =>
      simp only [List.nil_append, List.cons_prefix_cons]
      constructor
      · rintro ⟨ha, _⟩
        exact absurd (by simp [ha]) hd
      · intro h
        simp at h
  | cons t topic ih =>
    cases pre with
    | nil => simp
    | cons a pre =>
      have hd2 : d ∉ pre := fun e => hd (List.mem_cons_of_mem _ e)
      simp only [List.cons_append, List.cons_prefix_cons, ih pre hd2]

/-- Appending a suffix that starts with `-` to a topic with a `/` after the
trimmed prefix leaves the tenant unchanged. -/
theorem getTenant_append_dash (topic rest : GoString)
    (hwf : slash ∈ TrimPrefix topic persistentPrefix) :
    getTenant (topic ++ 45 :: rest) = getTenant topic := by
  have hp : HasPrefix (topic ++ 45 :: rest) persistentPrefix = HasPrefix topic persistentPrefix :=
    hasPrefix_append_of_not_mem persistentPrefix topic rest 45 (by decide)
  have ht : TrimPrefix (topic ++ 45 :: rest) persistentPrefix =
      TrimPrefix topic persistentPrefix ++ 45 :: rest := by
    unfold TrimPrefix
    rw [hp]
    by_cases h : HasPrefix topic persistentPrefix = true
    · have hl : persistentPrefix.length ≤ topic.length := ((hasPrefix_iff _ _).1 h).length_le
      rw [if_pos h, if_pos h, List.drop_append_of_le_length hl]
    · rw [if_neg h, if_neg h]
  rw [getTenant_eq, getTenant_eq, ht, if_pos hwf, if_pos (List.mem_append_left _ hwf),
    takeWhile_append_of_mem _ _ hwf]

theorem foldl_step (c : client) (originTopic : GoString) (cfg0 : manage.ConsumerConfig)
    (n : Nat) :
    ∃ x, (List.range n).foldl (NewConsumer.step c originTopic) (cfg0, []) =
      ({ cfg0 with Topic := x },
        (List.range n).map (fun i =>
          { csm := ⟨{ cfg0 with Topic := originTopic ++ ascii "-partition-" ++ decimal i }⟩
            topic := originTopic ++ ascii "-partition-" ++ decimal i
            stopped := ⟨0⟩ })) := by
  induction n with
  | zero => exact ⟨cfg0.Topic, rfl⟩
  | succ n ih =>
    obtain ⟨x, hx⟩ := ih
    refine ⟨originTopic ++ ascii "-partition-" ++ decimal n, ?_⟩
    rw [List.range_succ, List.foldl_append, hx, List.map_append]
    simp [NewConsumer.step, sprintf_partition, manage.NewManagedConsumer]

/-- What `NewConsumer` returns for a topic with a `/` after the trimmed prefix:
with `p` the result of `GetPartition`, for `p > 0` a `ConsumerList` of `p`
members, the member at index `i` on the topic `topic-partition-i`, and
otherwise the nil consumer with the error `pulsar connect failed`. -/
theorem newConsumer_eq (c : client) (config : ConsumerConfig)
    (hwf : slash ∈ TrimPrefix config.Topic persistentPrefix) :
    c.NewConsumer config =
      .ret (
        if c.GetPartition config.Topic (NewConsumer.clientConfig c config) > 0 then
          (.list
            { list := (List.range
                (c.GetPartition config.Topic (NewConsumer.clientConfig c config)).toNat).map
                (fun i =>
                  { csm := ⟨{ ClientConfig := NewConsumer.clientConfig c config
                              Topic := config.Topic ++ ascii "-partition-" ++ decimal i
                              SubMode := .SubscriptionModeFailover
                              Name := (TrimPrefix config.Topic persistentPrefix).takeWhile
                                (fun b => b != slash) ++ ascii "-sub"
                              NewConsumerTimeout := time.Minute }⟩
                    topic := config.Topic ++ ascii "-partition-" ++ decimal i
                    stopped := ⟨0⟩ })
              FlowPeriodSecond := DefaultFlowPeriodSecond
              FlowPermit := DefaultFlowPermit
              Topic := config.Topic
              Stopped := ⟨0⟩ }, none)
        else (.nil, some (errors.New (ascii "pulsar connect failed")))) := by
  unfold client.NewConsumer subscriptionName
  rw [getTenant_eq, if_pos hwf]
  simp only [Outcome.bind]
  by_cases hp : c.GetPartition config.Topic (NewConsumer.clientConfig c config) > 0
  · rw [if_pos hp, if_pos hp]
    obtain ⟨x, hx⟩ := foldl_step c config.Topic
      { ClientConfig := NewConsumer.clientConfig c config
        Topic := config.Topic
        SubMode := .SubscriptionModeFailover
        Name := (TrimPrefix config.Topic persistentPrefix).takeWhile
          (fun b => b != slash) ++ ascii "-sub"
        NewConsumerTimeout := time.Minute }
      (c.GetPartition config.Topic (NewConsumer.clientConfig c config)).toNat
    rw [hx]
  · rw [if_neg hp, if_neg hp]

/-! ## Topic naming -/

/-- C1: for every tenant `T` without a `/`, and every namespace and name, on the
topic `persistent://T/ns/name` the function `getTenant` returns exactly `T` and
`subscriptionName` returns exactly `T` followed by `-sub`. -/
theorem getTenant_subscriptionName_persistent (T ns name : GoString) (hT : slash ∉ T) :
    getTenant (ascii "persistent://" ++ T ++ ascii "/" ++ ns ++ ascii "/" ++ name) = .ret T ∧
    subscriptionName (ascii "persistent://" ++ T ++ ascii "/" ++ ns ++ ascii "/" ++ name) =
      .ret (T ++ ascii "-sub") := by
  have e : ascii "persistent://" ++ T ++ ascii "/" ++ ns ++ ascii "/" ++ name =
      persistentPrefix ++ (T ++ slash :: (ns ++ slash :: name)) := by
    simp [ascii_slash, persistentPrefix]
  have hg : getTenant (persistentPrefix ++ (T ++ slash :: (ns ++ slash :: name))) = .ret T := by
    rw [getTenant_eq, trimPrefix_append, if_pos (by simp), takeWhile_append_slash,
      takeWhile_of_not_mem T hT]
  rw [e]
  exact ⟨hg, by simp [subscriptionName, hg, Outcome.bind]⟩

/-- C1, at the tenant `abc`, namespace `out` and name `event`. -/
theorem getTenant_subscriptionName_persistent_witness :
    getTenant (ascii "persistent://" ++ ascii "abc" ++ ascii "/" ++ ascii "out" ++ ascii "/" ++
      ascii "event") = .ret (ascii "abc") ∧
    subscriptionName (ascii "persistent://" ++ ascii "abc" ++ ascii "/" ++ ascii "out" ++
      ascii "/" ++ ascii "event") = .ret (ascii "abc" ++ ascii "-sub") :=
  getTenant_subscriptionName_persistent (ascii "abc") (ascii "out") (ascii "event") (by decide)

/-- C3: on a topic with no `/` after the leading `persistent://` is trimmed,
tenant derivation does not return an error value: `getTenant` raises the Go
run-time panic `slice bounds out of range [:-1]`, for the empty topic, the bare
prefix and the topic `abc`, and so do `subscriptionName` and `NewConsumer`. -/
theorem getTenant_panics_on_malformed_topic :
    getTenant (ascii "") = .panic (.sliceBoundsOutOfRange (-1) 0) ∧
    getTenant (ascii "persistent://") = .panic (.sliceBoundsOutOfRange (-1) 0) ∧
    getTenant (ascii "abc") = .panic (.sliceBoundsOutOfRange (-1) 3) ∧
    subscriptionName (ascii "abc") = .panic (.sliceBoundsOutOfRange (-1) 3) ∧
    client.NewConsumer ⟨poolReporting 3, PulsarAddrCN⟩ malformedConfig =
      .panic (.sliceBoundsOutOfRange (-1) 3) := by
  decide

/-- C6: for every access id, the empty one and those with `/` or `%` included,
`TopicForAccessID` returns exactly `persistent://`, the id and `/out/event`;
for the id `abc` that is `persistent://abc/out/event`. -/
theorem topicForAccessID_eq :
    (∀ accessID : GoString,
      TopicForAccessID accessID = ascii "persistent://" ++ accessID ++ ascii "/out/event") ∧
    TopicForAccessID (ascii "abc") = ascii "persistent://abc/out/event" ∧
    TopicForAccessID (ascii "") = ascii "persistent:///out/event" ∧
    TopicForAccessID (ascii "a/%s%d") = ascii "persistent://a/%s%d/out/event" := by
  refine ⟨fun accessID => sprintf_topicForAccessID accessID, ?_, ?_, ?_⟩ <;> decide

/-- C10: for every access id, `getTenant` of the topic built by
`TopicForAccessID` returns (it does not panic) the bytes of the id before its
first `/`; for an access id without a `/` that is the id itself, and
`subscriptionName` of the topic is the id followed by `-sub`. -/
theorem getTenant_topicForAccessID :
    (∀ accessID : GoString,
      getTenant (TopicForAccessID accessID) =
        .ret (accessID.takeWhile (fun b => b != slash))) ∧
    (∀ accessID : GoString, slash ∉ accessID →
      getTenant (TopicForAccessID accessID) = .ret accessID ∧
      subscriptionName (TopicForAccessID accessID) = .ret (accessID ++ ascii "-sub")) := by
  have hg : ∀ accessID : GoString,
      getTenant (TopicForAccessID accessID) =
        .ret (accessID.takeWhile (fun b => b != slash)) := by
    intro accessID
    have e : TopicForAccessID accessID =
        persistentPrefix ++ (accessID ++ slash :: ascii "out/event") := by
      unfold TopicForAccessID
      rw [sprintf_topicForAccessID, List.append_assoc]
      rfl
    rw [e, getTenant_eq, trimPrefix_append, if_pos (by simp), takeWhile_append_slash]
  refine ⟨hg, fun accessID h => ?_⟩
  have hg2 := hg accessID
  rw [takeWhile_of_not_mem accessID h] at hg2
  exact ⟨hg2, by simp [subscriptionName, hg2, Outcome.bind]⟩

/-- C10, at the access id `accessID` of the example program. -/
theorem getTenant_topicForAccessID_witness :
    getTenant (TopicForAccessID (ascii "accessID")) = .ret (ascii "accessID") ∧
    subscriptionName (TopicForAccessID (ascii "accessID")) =
      .ret (ascii "accessID" ++ ascii "-sub") :=
  getTenant_topicForAccessID.2 (ascii "accessID") (by decide)

/-! ## Partition lookup and consumer construction -/

theorem getPartition_of_error (c : client) (topic : GoString) (config : manage.ClientConfig)
    (err : GoError) (he : c.pool.Partitions config topic = .error err) :
    c.GetPartition topic config = 0 := by
  simp [client.GetPartition, he]

theorem getPartition_of_ok (c : client) (topic : GoString) (config : manage.ClientConfig)
    (p : manage.PartitionedTopicMetadata) (hp : c.pool.Partitions config topic = .ok p) :
    c.GetPartition topic config = (p.partitions.val : Int) := by
  have hlt : p.partitions.val < 2 ^ 63 := by
    have := p.partitions.isLt
    omega
  simp [client.GetPartition, hp, manage.PartitionedTopicMetadata.GetPartitions,
    toInt_of_lt _ hlt]

/-- C7: `GetPartition` returns `0` whenever the pool's partition query returns
an error, and the error is not part of its result; when the query succeeds it
returns exactly the partition count of the answer. The result is therefore `0`
both for a failed lookup and for an answer of `0` partitions, and it is never
negative. -/
theorem getPartition_spec (c : client) (topic : GoString) (config : manage.ClientConfig) :
    (∀ err, c.pool.Partitions config topic = .error err → c.GetPartition topic config = 0) ∧
    (∀ p, c.pool.Partitions config topic = .ok p →
      c.GetPartition topic config = (p.partitions.val : Int)) ∧
    (∀ p, c.pool.Partitions config topic = .ok p → p.partitions.val = 0 →
      c.GetPartition topic config = 0) ∧
    0 ≤ c.GetPartition topic config := by
  refine ⟨getPartition_of_error c topic config, getPartition_of_ok c topic config, ?_, ?_⟩
  · intro p hp h0
    rw [getPartition_of_ok c topic config p hp, h0]
    rfl
  · cases hq : c.pool.Partitions config topic with
    | error err => rw [getPartition_of_error c topic config err hq]
    | ok p =>
      rw [getPartition_of_ok c topic config p hq]
      exact Int.ofNat_nonneg _

/-- C7, on a pool whose query fails and on a pool that answers `0` partitions:
the result is `0` in both cases. -/
theorem getPartition_spec_witness :
    client.GetPartition ⟨poolFailing, PulsarAddrCN⟩ exampleConfig.Topic
      (NewConsumer.clientConfig ⟨poolFailing, PulsarAddrCN⟩ exampleConfig) = 0 ∧
    client.GetPartition ⟨poolReporting 0, PulsarAddrCN⟩ exampleConfig.Topic
      (NewConsumer.clientConfig ⟨poolReporting 0, PulsarAddrCN⟩ exampleConfig) = 0 :=
  ⟨(getPartition_spec ⟨poolFailing, PulsarAddrCN⟩ exampleConfig.Topic
      (NewConsumer.clientConfig ⟨poolFailing, PulsarAddrCN⟩ exampleConfig)).1
      (errors.New (ascii "context deadline exceeded")) rfl,
   (getPartition_spec ⟨poolReporting 0, PulsarAddrCN⟩ exampleConfig.Topic
      (NewConsumer.clientConfig ⟨poolReporting 0, PulsarAddrCN⟩ exampleConfig)).2.2.1
      ⟨0⟩ rfl rfl⟩

/-- C2: for every topic with a `/` after the trimmed prefix and every partition
count `P >= 1` reported by `GetPartition`, `NewConsumer` returns a nil error and
a `ConsumerList` whose list has exactly `P` members. The member at every index
`i < P` is bound to the original topic followed by `-partition-` and the decimal
rendering of `i`: that is the topic of the configuration its managed consumer
was created with on the client's pool, and the topic the member records. -/
theorem newConsumer_partitioned (c : client) (config : ConsumerConfig) (P : Nat)
    (hwf : slash ∈ TrimPrefix config.Topic persistentPrefix)
    (hP : c.GetPartition config.Topic (NewConsumer.clientConfig c config) = (P : Int))
    (h1 : 1 ≤ P) :
    ∃ cl : ConsumerList,
      c.NewConsumer config = .ret (.list cl, none) ∧
      cl.list.length = P ∧
      (∀ i, i < P →
        (cl.list[i]?).map (fun m => m.topic) =
          some (config.Topic ++ ascii "-partition-" ++ decimal i)) ∧
      (∀ i, i < P →
        ∃ m : consumerImpl, cl.list[i]? = some m ∧
          m.csm = manage.NewManagedConsumer c.pool m.csm.cfg ∧
          m.csm.cfg.Topic = config.Topic ++ ascii "-partition-" ++ decimal i ∧
          m.topic = config.Topic ++ ascii "-partition-" ++ decimal i) := by
  have hpos : c.GetPartition config.Topic (NewConsumer.clientConfig c config) > 0 := by
    rw [hP]
    exact_mod_cast h1
  rw [newConsumer_eq c config hwf, if_pos hpos, hP]
  refine ⟨_, rfl, by simp, ?_, ?_⟩
  · intro i hi
    simp [hi]
  · intro i hi
    refine ⟨{ csm := ⟨{ ClientConfig := NewConsumer.clientConfig c config
                        Topic := config.Topic ++ ascii "-partition-" ++ decimal i
                        SubMode := .SubscriptionModeFailover
                        Name := (TrimPrefix config.Topic persistentPrefix).takeWhile
                          (fun b => b != slash) ++ ascii "-sub"
                        NewConsumerTimeout := time.Minute }⟩
              topic := config.Topic ++ ascii "-partition-" ++ decimal i
              stopped := ⟨0⟩ }, ?_, rfl, rfl, rfl⟩
    simp [hi]

/-- C2, on the example topic with a broker that reports 3 partitions. -/
theorem newConsumer_partitioned_witness :
    ∃ cl : ConsumerList,
      client.NewConsumer ⟨poolReporting 3, PulsarAddrCN⟩ exampleConfig = .ret (.list cl, none) ∧
      cl.list.length = 3 ∧
      (∀ i, i < 3 →
        (cl.list[i]?).map (fun m => m.topic) =
          some (exampleConfig.Topic ++ ascii "-partition-" ++ decimal i)) ∧
      (∀ i, i < 3 →
        ∃ m : consumerImpl, cl.list[i]? = some m ∧
          m.csm = manage.NewManagedConsumer (poolReporting 3) m.csm.cfg ∧
          m.csm.cfg.Topic = exampleConfig.Topic ++ ascii "-partition-" ++ decimal i ∧
          m.topic = exampleConfig.Topic ++ ascii "-partition-" ++ decimal i) :=
  newConsumer_partitioned ⟨poolReporting 3, PulsarAddrCN⟩ exampleConfig 3
    (by decide) (by decide) (by decide)

/-- C4: when the partition query succeeds and reports `0` partitions for the
well-formed example topic, `NewConsumer` returns the nil consumer with the error
`pulsar connect failed`; it does not return the single consumer on the original
topic that the statements after its last `return` would build. -/
theorem newConsumer_zero_partitions_fails :
    manage.ClientPool.Partitions (poolReporting 0)
      (NewConsumer.clientConfig ⟨poolReporting 0, PulsarAddrCN⟩ exampleConfig)
      exampleConfig.Topic = .ok ⟨0⟩ ∧
    client.NewConsumer ⟨poolReporting 0, PulsarAddrCN⟩ exampleConfig =
      .ret (.nil, some (errors.New (ascii "pulsar connect failed"))) ∧
    client.NewConsumer ⟨poolReporting 0, PulsarAddrCN⟩ exampleConfig ≠
      .ret (NewConsumer.singleTopic ⟨poolReporting 0, PulsarAddrCN⟩
        { ClientConfig := NewConsumer.clientConfig ⟨poolReporting 0, PulsarAddrCN⟩ exampleConfig
          Topic := exampleConfig.Topic
          SubMode := .SubscriptionModeFailover
          Name := ascii "abc-sub"
          NewConsumerTimeout := time.Minute }) :=
  ⟨rfl, by decide, by decide⟩

/-- C5: for every topic with a `/` after the trimmed prefix and every outcome
of the partition query, `NewConsumer` returns, and never a nil consumer with a
nil error: it returns a non-nil consumer with a nil error or the nil consumer
with a non-nil error, and the latter whenever the partition query fails. -/
theorem newConsumer_result_shape (c : client) (config : ConsumerConfig)
    (hwf : slash ∈ TrimPrefix config.Topic persistentPrefix) :
    ((∃ k : Consumer, k ≠ .nil ∧ c.NewConsumer config = .ret (k, none)) ∨
      (∃ e : GoError, c.NewConsumer config = .ret (.nil, some e))) ∧
    c.NewConsumer config ≠ .ret (.nil, none) ∧
    (∀ err, c.pool.Partitions (NewConsumer.clientConfig c config) config.Topic = .error err →
      ∃ e : GoError, c.NewConsumer config = .ret (.nil, some e)) := by
  rw [newConsumer_eq c config hwf]
  by_cases hp : c.GetPartition config.Topic (NewConsumer.clientConfig c config) > 0
  · rw [if_pos hp]
    refine ⟨Or.inl ⟨_, by simp, rfl⟩, by simp, ?_⟩
    intro err he
    have h0 := getPartition_of_error c config.Topic (NewConsumer.clientConfig c config) err he
    omega
  · rw [if_neg hp]
    exact ⟨Or.inr ⟨_, rfl⟩, by simp, fun _ _ => ⟨_, rfl⟩⟩

/-- C5, on the example topic with a pool whose partition query fails. -/
theorem newConsumer_result_shape_witness :
    ∃ e : GoError,
      client.NewConsumer ⟨poolFailing, PulsarAddrCN⟩ exampleConfig = .ret (.nil, some e) :=
  (newConsumer_result_shape ⟨poolFailing, PulsarAddrCN⟩ exampleConfig (by decide)).2.2
    (errors.New (ascii "context deadline exceeded")) rfl

/-- C9: for every topic with a `/` after the trimmed prefix and every partition
index `i`, the per-partition topic has the subscription name of the original
topic; `NewConsumer` returns, and every member of a list it returns carries that
one name in the configuration of its managed consumer. -/
theorem subscriptionName_partition (topic : GoString)
    (hwf : slash ∈ TrimPrefix topic persistentPrefix) :
    (∀ i : Nat,
      subscriptionName (topic ++ ascii "-partition-" ++ decimal i) = subscriptionName topic) ∧
    (∀ (c : client) (auth : AuthProvider),
      ∃ r, c.NewConsumer ⟨topic, auth⟩ = .ret r ∧
        ∀ cl : ConsumerList, r.1 = .list cl → ∀ m ∈ cl.list,
          subscriptionName topic = .ret m.csm.cfg.Name ∧
          subscriptionName m.topic = .ret m.csm.cfg.Name) := by
  have h1 : ∀ i : Nat,
      subscriptionName (topic ++ ascii "-partition-" ++ decimal i) = subscriptionName topic := by
    intro i
    have e : topic ++ ascii "-partition-" ++ decimal i =
        topic ++ 45 :: (ascii "partition-" ++ decimal i) := by
      rw [List.append_assoc]
      rfl
    rw [e]
    unfold subscriptionName
    rw [getTenant_append_dash topic _ hwf]
  have hs : subscriptionName topic =
      .ret ((TrimPrefix topic persistentPrefix).takeWhile (fun b => b != slash) ++
        ascii "-sub") := by
    unfold subscriptionName
    rw [getTenant_eq, if_pos hwf]
    rfl
  refine ⟨h1, fun c auth => ?_⟩
  rw [newConsumer_eq c ⟨topic, auth⟩ hwf]
  refine ⟨_, rfl, ?_⟩
  intro cl hcl m hm
  by_cases hp : c.GetPartition topic (NewConsumer.clientConfig c ⟨topic, auth⟩) > 0
  · rw [if_pos hp] at hcl
    simp only [Consumer.list.injEq] at hcl
    subst hcl
    simp only [List.mem_map, List.mem_range] at hm
    obtain ⟨i, _, rfl⟩ := hm
    exact ⟨hs, by rw [h1 i, hs]⟩
  · rw [if_neg hp] at hcl
    simp at hcl

/-- C9, on the example topic at partition index 2. -/
theorem subscriptionName_partition_witness :
    subscriptionName (exampleConfig.Topic ++ ascii "-partition-" ++ decimal 2) =
      subscriptionName exampleConfig.Topic :=
  (subscriptionName_partition exampleConfig.Topic (by decide)).1 2

/-- The `ConsumerList` built by `NewConsumer` carries the default flow period
of 30 seconds and the default permit count of 10. -/
theorem newConsumer_flow_defaults (c : client) (config : ConsumerConfig) (cl : ConsumerList)
    (e : Option GoError) (h : c.NewConsumer config = .ret (.list cl, e)) :
    cl.FlowPeriodSecond = 30 ∧ cl.FlowPermit = 10 := by
  unfold client.NewConsumer at h
  cases hn : subscriptionName config.Topic with
  | panic q => simp [hn, Outcome.bind] at h
  | ret name =>
    simp only [hn, Outcome.bind] at h
    split at h
    · simp only [Outcome.ret.injEq, Prod.mk.injEq, Consumer.list.injEq] at h
      rw [← h.1]
      exact ⟨rfl, rfl⟩
    · simp at h

end Pulsar
